import Mathlib

/-!
Verification of the LOLWUT canvas library (a Rust reimplementation of
Redis's LOLWUT5 command) against its natural-language specification.

The development shallowly embeds the library's code:

* machine integers `u8`, `u32`, `i32`, `isize` are modelled as `Nat`/`Int`,
  with explicit wrapping (`% 2^32`, `wrap32`) exactly where the Rust
  semantics (release mode) wraps;
* `f32`/`f64` values are modelled as exact unnormalized fractions (`Frac`)
  over `Int`; `sin`/`cos` are threaded as abstract parameters, since no
  claim depends on their values;
* the global random number generator is modelled as an injected
  deterministic stream (`Rng`), and every draw records its kind
  (`RngReq.f` for a uniform float, `RngReq.b` for a boolean) in a trace,
  so theorems can speak about the order of generator invocations;
* the panic of `clear`/`fill` on an empty pixel buffer (the Rust code
  indexes `self.pixels[0]`) is modelled by returning `none`;
* `draw_line`'s loop is embedded with explicit fuel; termination is the
  theorem that fuel `|dx| + |dy| + 1` always suffices.
-/

/-! ## Encoder: `translate_pixels_group` (src/lib.rs lines 320-341) -/

/-- Decode the first scalar value from a byte sequence the way Rust's
`str::Chars` iterator does on text produced by `from_utf8_unchecked`
(`core::str::next_code_point`): the lead byte is trusted and the
continuation bytes are masked with `0x3f`.  Returns `none` when the
sequence is too short to finish the character. -/
def utf8DecodeFirst : List Nat → Option Nat
  | [] => none
  | b0 :: rest =>
    if b0 < 0x80 then some b0
    else
      match rest with
      | [] => none
      | b1 :: rest2 =>
        if b0 < 0xe0 then some (((b0 &&& 0x1f) <<< 6) ||| (b1 &&& 0x3f))
        else
          match rest2 with
          | [] => none
          | b2 :: rest3 =>
            if b0 < 0xf0 then
              some (((b0 &&& 0x1f) <<< 12) |||
                    (((b1 &&& 0x3f) <<< 6) ||| (b2 &&& 0x3f)))
            else
              match rest3 with
              | [] => none
              | b3 :: _ =>
                some ((((b0 &&& 0x1f) &&& 7) <<< 18) |||
                      ((((b1 &&& 0x3f) <<< 6) ||| (b2 &&& 0x3f)) <<< 6) |||
                      (b3 &&& 0x3f))

/-- Embedding of `translate_pixels_group` (src/lib.rs:320).  `byte` is a
`u8` value; the result is the Unicode code point of the returned `char`.
The function builds the three UTF-8 bytes `1110_xxxx 10xx_xxxx 10xx_xxxx`
of `0x2800 + byte` by hand (each `as u8` cast is `% 256`), decodes them
back, and falls back to `'☂'` (U+2602) if no character results. -/
def translate_pixels_group (byte : Nat) : Nat :=
  let code := 0x2800 + byte
  let out : List Nat :=
    [ 0xe0 ||| ((code >>> 12) % 256),
      0x80 ||| (((code >>> 6) % 256) &&& 0x3f),
      0x80 ||| ((code % 256) &&& 0x3f) ]
  match utf8DecodeFirst out with
  | some c => c
  | none => 0x2602

/-! ## Canvas core (src/lib.rs lines 24-151) -/

/-- Embedding of `struct Canvas`: a flat byte buffer with `i32` width and
height.  Each pixel is one byte. -/
structure Canvas where
  pixels : List Nat
  width  : Int
  height : Int
deriving DecidableEq

/-- Reinterpret a `u32` value as an `i32`, as Rust's `as i32` cast does. -/
def u32_to_i32 (n : Nat) : Int :=
  if n % 2^32 < 2^31 then ((n % 2^32 : Nat) : Int)
  else ((n % 2^32 : Nat) : Int) - 2^32

/-- Embedding of `Canvas::create` (src/lib.rs:62).  The pixel count is the
`u32` product `width * height`, which in release mode wraps on overflow
(`% 2^32`); the dimensions are stored through `as i32` casts.  The Rust
function returns `Result` but never produces an error, so the embedding
returns the canvas directly. -/
def Canvas.create (width height : Nat) : Canvas :=
  let px_count := (width * height) % 2^32
  { pixels := List.replicate px_count 0
    width  := u32_to_i32 width
    height := u32_to_i32 height }

/-- Embedding of `Canvas::index` (src/lib.rs:119): bounds-check the
coordinate, then form the linear index `x + y * width` and check it
against the buffer length. -/
def Canvas.index (c : Canvas) (x y : Int) : Option Nat :=
  if 0 ≤ x ∧ x < c.width ∧ 0 ≤ y ∧ y < c.height then
    let i := x.toNat + y.toNat * c.width.toNat
    if i < c.pixels.length then some i else none
  else none

/-- Embedding of `Canvas::get_pixel` (src/lib.rs:138): out-of-bounds reads
return 0. -/
def Canvas.get_pixel (c : Canvas) (x y : Int) : Nat :=
  match c.index x y with
  | some i => c.pixels.getD i 0
  | none   => 0

/-- Embedding of `Canvas::draw_pixel` (src/lib.rs:146): out-of-bounds
writes are ignored. -/
def Canvas.draw_pixel (c : Canvas) (x y : Int) (color : Nat) : Canvas :=
  match c.index x y with
  | some i => { c with pixels := c.pixels.set i color }
  | none   => c

/-- Embedding of `Canvas::clear` (src/lib.rs:103).  The Rust code takes a
reference to `self.pixels[0]` before the raw write; on an empty buffer
that indexing panics, which the embedding models as `none`.  Otherwise
every byte of the buffer is overwritten with 0. -/
def Canvas.clear (c : Canvas) : Option Canvas :=
  if c.pixels.length = 0 then none
  else some { c with pixels := List.replicate c.pixels.length 0 }

/-- Embedding of `Canvas::fill` (src/lib.rs:110); same shape as `clear`
but writes 1. -/
def Canvas.fill (c : Canvas) : Option Canvas :=
  if c.pixels.length = 0 then none
  else some { c with pixels := List.replicate c.pixels.length 1 }

/-! ## Rasterizer: `draw_line` (src/lib.rs lines 154-182) -/

/-- Coordinate and error update of one `draw_line` loop iteration:
`e2 = 2*err`; if `e2 > -dy` then `err -= dy; x += sx`; if `e2 < dx` then
`err += dx; y += sy`.  Both conditions test the `e2` computed before
either update, exactly as the source does. -/
def lineStep (dx dy sx sy x y err : Int) : Int × Int × Int :=
  ( (if 2 * err > -dy then x + sx else x),
    (if 2 * err < dx then y + sy else y),
    (if 2 * err < dx then (if 2 * err > -dy then err - dy else err) + dx
     else (if 2 * err > -dy then err - dy else err)) )

/-- The `loop { ... }` of `draw_line`, embedded with explicit fuel.  Each
iteration plots the current point with `draw_pixel` and breaks after
plotting the endpoint.  The result also carries the list of points passed
to `draw_pixel`, in order; `none` means the fuel ran out (the termination
theorem shows that `|dx| + |dy| + 1` fuel never does). -/
def drawLineLoop (color : Nat) (x2 y2 sx sy dx dy : Int) :
    Nat → Canvas → Int → Int → Int → Option (Canvas × List (Int × Int))
  | 0, _, _, _, _ => none
  | fuel + 1, c, x, y, err =>
    let c1 := c.draw_pixel x y color
    if x = x2 ∧ y = y2 then some (c1, [(x, y)])
    else
      match drawLineLoop color x2 y2 sx sy dx dy fuel c1
          (lineStep dx dy sx sy x y err).1
          (lineStep dx dy sx sy x y err).2.1
          (lineStep dx dy sx sy x y err).2.2 with
      | none => none
      | some (cf, pts) => some (cf, (x, y) :: pts)

/-- Embedding of `Canvas::draw_line` (src/lib.rs:154) including the list
of plotted points: `sx = if x1 < x2 { 1 } else { -1 }` (so `-1` when
`x1 == x2`), `sy` analogous, `dx = |x2-x1|`, `dy = |y2-y1|`, initial
`err = dx - dy`, starting point `(x1, y1)`.  The fuel `dx + dy + 1` is
proved sufficient below. -/
def Canvas.drawLineRun (c : Canvas) (x1 y1 x2 y2 : Int) (color : Nat) :
    Option (Canvas × List (Int × Int)) :=
  drawLineLoop color x2 y2 (if x1 < x2 then 1 else -1) (if y1 < y2 then 1 else -1)
    (|x2 - x1|) (|y2 - y1|) ((x2 - x1).natAbs + (y2 - y1).natAbs + 1) c x1 y1
    (|x2 - x1| - |y2 - y1|)

/-- Embedding of `Canvas::draw_line`'s effect on the canvas. -/
def Canvas.draw_line (c : Canvas) (x1 y1 x2 y2 : Int) (color : Nat) : Canvas :=
  match c.drawLineRun x1 y1 x2 y2 color with
  | some (cf, _) => cf
  | none => c

/-! ## Encoder: `render` (src/lib.rs lines 282-307) -/

/-- The values visited by Rust's `(0..hi).step_by(step)` iterator, as a
list: `0, step, 2*step, ...`, strictly below `hi` (empty when `hi ≤ 0`). -/
def stepUpTo (hi : Int) (step : Nat) : List Int :=
  (List.range ((hi.toNat + step - 1) / step)).map (fun k : Nat => ((k * step : Nat) : Int))

/-- The byte `render` builds for the 2 by 4 tile whose top-left corner is
`(x, y)`: the chain of `byte |= 1 << k` updates of the source, bit `k`
set when the corresponding `get_pixel` sample is non-zero. -/
def Canvas.tileByte (c : Canvas) (x y : Int) : Nat :=
  let b0 : Nat := 0
  let b1 := if c.get_pixel x y ≠ 0 then b0 ||| (1 <<< 0) else b0
  let b2 := if c.get_pixel x (y + 1) ≠ 0 then b1 ||| (1 <<< 1) else b1
  let b3 := if c.get_pixel x (y + 2) ≠ 0 then b2 ||| (1 <<< 2) else b2
  let b4 := if c.get_pixel (x + 1) y ≠ 0 then b3 ||| (1 <<< 3) else b3
  let b5 := if c.get_pixel (x + 1) (y + 1) ≠ 0 then b4 ||| (1 <<< 4) else b4
  let b6 := if c.get_pixel (x + 1) (y + 2) ≠ 0 then b5 ||| (1 <<< 5) else b5
  let b7 := if c.get_pixel x (y + 3) ≠ 0 then b6 ||| (1 <<< 6) else b6
  if c.get_pixel (x + 1) (y + 3) ≠ 0 then b7 ||| (1 <<< 7) else b7

/-- A tile sample with an explicit bounds guard: samples outside the
canvas read as off (0).  This is the spec's description of how partial
tiles at the right/bottom edge are encoded. -/
def Canvas.sampleClipped (c : Canvas) (x y : Int) : Nat :=
  if 0 ≤ x ∧ x < c.width ∧ 0 ≤ y ∧ y < c.height then c.get_pixel x y else 0

/-- The tile byte built from the explicitly clipped samples, so that a
sample outside the canvas visibly contributes no bit. -/
def Canvas.tileByteClipped (c : Canvas) (x y : Int) : Nat :=
  let b0 : Nat := 0
  let b1 := if c.sampleClipped x y ≠ 0 then b0 ||| (1 <<< 0) else b0
  let b2 := if c.sampleClipped x (y + 1) ≠ 0 then b1 ||| (1 <<< 1) else b1
  let b3 := if c.sampleClipped x (y + 2) ≠ 0 then b2 ||| (1 <<< 2) else b2
  let b4 := if c.sampleClipped (x + 1) y ≠ 0 then b3 ||| (1 <<< 3) else b3
  let b5 := if c.sampleClipped (x + 1) (y + 1) ≠ 0 then b4 ||| (1 <<< 4) else b4
  let b6 := if c.sampleClipped (x + 1) (y + 2) ≠ 0 then b5 ||| (1 <<< 5) else b5
  let b7 := if c.sampleClipped x (y + 3) ≠ 0 then b6 ||| (1 <<< 6) else b6
  if c.sampleClipped (x + 1) (y + 3) ≠ 0 then b7 ||| (1 <<< 7) else b7

/-- One row of glyph code points emitted by `render` for the tile row at
pixel row `y`, including the trailing line break (code point 10). -/
def Canvas.renderRow (c : Canvas) (y : Int) : List Nat :=
  ((stepUpTo c.width 2).map (fun x => translate_pixels_group (c.tileByte x y))) ++ [10]

/-- Embedding of `Canvas::render` (src/lib.rs:282) as the list of the
Unicode code points of the produced string, in order: for each `y` in
`(0..height).step_by(4)` and each `x` in `(0..width).step_by(2)` the
glyph of the tile at `(x, y)`, then a line break after each tile row. -/
def Canvas.render (c : Canvas) : List Nat :=
  ((stepUpTo c.height 4).map (fun y => c.renderRow y)).flatten

/-! ## Exact fraction model of the `f32`/`f64` values -/

/-- An exact, unnormalized fraction `num / den`; every fraction built by
the embedding keeps `den` positive.  The source's float arithmetic on the
layout and perturbation values only adds, subtracts, multiplies, divides
and rounds, so exact rationals model the computation; unnormalized
fractions over `Int` are used instead of `ℚ` to keep every definition
kernel-computable. -/
structure Frac where
  num : Int
  den : Int
deriving DecidableEq

/-- The fraction of an integer. -/
def Frac.ofInt (n : Int) : Frac := ⟨n, 1⟩

/-- Fraction addition (denominators multiply; no normalization). -/
def Frac.add (a b : Frac) : Frac := ⟨a.num * b.den + b.num * a.den, a.den * b.den⟩

/-- Fraction subtraction. -/
def Frac.sub (a b : Frac) : Frac := ⟨a.num * b.den - b.num * a.den, a.den * b.den⟩

/-- Fraction multiplication. -/
def Frac.mul (a b : Frac) : Frac := ⟨a.num * b.num, a.den * b.den⟩

/-- Fraction division, normalizing the sign so the denominator stays
positive (division by a zero fraction produces a garbage value, like the
infinity it would produce in `f32`; every claim that divides constrains
the divisor to be positive). -/
def Frac.div (a b : Frac) : Frac :=
  if 0 ≤ b.num then ⟨a.num * b.den, a.den * b.num⟩
  else ⟨-(a.num * b.den), a.den * (-b.num)⟩

/-- Fraction negation. -/
def Frac.neg (a : Frac) : Frac := ⟨-a.num, a.den⟩

/-- Rust's `f32::round`/`f64::round`: round half away from zero. -/
def Frac.roundAway (a : Frac) : Int :=
  if 0 ≤ a.num then (2 * a.num + a.den).fdiv (2 * a.den)
  else -((-(2 * a.num) + a.den).fdiv (2 * a.den))

/-- Clamp an integer into `i32` range, as Rust's saturating float-to-int
cast does once the value has been rounded. -/
def clamp32 (n : Int) : Int := max (-(2 ^ 31)) (min (2 ^ 31 - 1) n)

/-- A rounded-then-cast `(...).round() as i32` on a float value. -/
def Frac.toI32 (a : Frac) : Int := clamp32 a.roundAway

/-- Wrapping `i32` arithmetic: Rust's release-mode overflow semantics. -/
def wrap32 (n : Int) : Int := (n + 2 ^ 31) % 2 ^ 32 - 2 ^ 31

/-- Embedding of `enum CanvasError` (src/lib.rs:32). -/
inductive CanvasError where
  | PixelBufferTooSmall (needed actual : Nat)
  | CanvasTooSmall (needed_width actual_width needed_height actual_height : Int)
deriving DecidableEq

/-! ## The injected random number generator -/

/-- The kind of one generator invocation: a uniform float draw (`f`) or a
boolean coin flip (`b`). -/
inductive RngReq where
  | f
  | b
deriving DecidableEq

/-- An injected deterministic random stream: the `n`-th draw (counting
draws of both kinds) yields `floats n` when asked for a float and
`bools n` when asked for a boolean, so a fixed `Rng` models a seeded
generator. -/
structure Rng where
  floats : Nat → Frac
  bools  : Nat → Bool

/-- The consumption state of the generator: how many draws have happened
and the trace of their kinds, in order. -/
structure RngState where
  pos : Nat
  trace : List RngReq
deriving DecidableEq

/-- One `random::<f32>()` invocation. -/
def randF (rng : Rng) (s : RngState) : Frac × RngState :=
  (rng.floats s.pos, ⟨s.pos + 1, s.trace ++ [RngReq.f]⟩)

/-- One `random::<bool>()` invocation. -/
def randB (rng : Rng) (s : RngState) : Bool × RngState :=
  (rng.bools s.pos, ⟨s.pos + 1, s.trace ++ [RngReq.b]⟩)

/-- The RNG request pattern of one square of `draw_schotter`: three float
draws, each immediately followed by one boolean coin flip. -/
def sqPat : List RngReq :=
  [RngReq.f, RngReq.b, RngReq.f, RngReq.b, RngReq.f, RngReq.b]

/-! ## Rasterizer: `draw_square` (src/lib.rs lines 186-216) -/

/-- The `f32` constant `PI`, modelled as an exact fraction (its value
never enters a theorem; the corner angles are fed to the abstract
`sin`/`cos` models). -/
def piF : Frac := ⟨31415927, 10000000⟩

/-- The `1.4142135623` literal of `draw_square`. -/
def rt2 : Frac := ⟨14142135623, 10000000000⟩

/-- Embedding of `Canvas::draw_square` (src/lib.rs:186), parameterized by
models of `f32::sin` and `f32::cos` (no claim depends on their values):
the scale is `round(size / 1.4142135623)`, corner `j` samples the circle
at `PI/4 + angle + j*(PI/2)`, each corner coordinate is
`round(sin_or_cos * scale + center).as i32`, and the four consecutive
corners (wrapping around) are joined with `draw_line` at color 1. -/
def Canvas.draw_square (sinM cosM : Frac → Frac) (c : Canvas) (x y : Int)
    (size angle : Frac) : Canvas :=
  let sizeR : Frac := Frac.ofInt ((size.div rt2).roundAway)
  let corner : Nat → Int × Int := fun j =>
    let k := ((piF.div (Frac.ofInt 4)).add angle).add
      ((piF.div (Frac.ofInt 2)).mul (Frac.ofInt j))
    ( (((sinM k).mul sizeR).add (Frac.ofInt x)).toI32,
      (((cosM k).mul sizeR).add (Frac.ofInt y)).toI32 )
  let c1 := c.draw_line (corner 0).1 (corner 0).2 (corner 1).1 (corner 1).2 1
  let c2 := c1.draw_line (corner 1).1 (corner 1).2 (corner 2).1 (corner 2).2 1
  let c3 := c2.draw_line (corner 2).1 (corner 2).2 (corner 3).1 (corner 3).2 1
  c3.draw_line (corner 3).1 (corner 3).2 (corner 0).1 (corner 0).2 1

/-! ## Composer: `draw_schotter` (src/lib.rs lines 222-273) -/

/-- `needed_width = 2 * console_cols` in `i32`. -/
def schotter_needed_width (console_cols : Int) : Int := wrap32 (2 * console_cols)

/-- `padding = 2.0` when `needed_width > 4`, else `0.0`. -/
def schotter_padding (console_cols : Int) : Frac :=
  if 4 < schotter_needed_width console_cols then Frac.ofInt 2 else Frac.ofInt 0

/-- `square_side = (needed_width - 2*padding) / squares_per_row`. -/
def schotter_square_side (console_cols spr : Int) : Frac :=
  ((Frac.ofInt (schotter_needed_width console_cols)).sub
    ((Frac.ofInt 2).mul (schotter_padding console_cols))).div (Frac.ofInt spr)

/-- `needed_height = round(square_side * squares_per_col + 2*padding)`
cast to `i32`. -/
def schotter_needed_height (console_cols spr spc : Int) : Int :=
  (((schotter_square_side console_cols spr).mul (Frac.ofInt spc)).add
    ((Frac.ofInt 2).mul (schotter_padding console_cols))).toI32

/-- The body drawn for the grid cell `(xi, yi)` (src/lib.rs:250-268):
base position from the cell, then `r1 = random::<f32>() * factor` with
`if random() { r1 = -r1 }`, the same for `r2` and `r3`, then one rotated
square at the perturbed position with angle `r1`. -/
def schotterSquare (sinM cosM : Frac → Frac) (rng : Rng)
    (side padding factor : Frac) (xi yi : Int) :
    Canvas × RngState → Canvas × RngState :=
  fun cs =>
    let sx0 := ((((Frac.ofInt xi).mul side).add
      (side.div (Frac.ofInt 2))).add padding).toI32
    let sy0 := ((((Frac.ofInt yi).mul side).add
      (side.div (Frac.ofInt 2))).add padding).toI32
    let p1 := randF rng cs.2
    let q1 := randB rng p1.2
    let r1 := if q1.1 then (p1.1.mul factor).neg else p1.1.mul factor
    let p2 := randF rng q1.2
    let q2 := randB rng p2.2
    let r2 := if q2.1 then (p2.1.mul factor).neg else p2.1.mul factor
    let p3 := randF rng q2.2
    let q3 := randB rng p3.2
    let r3 := if q3.1 then (p3.1.mul factor).neg else p3.1.mul factor
    let angle := r1
    let sx := sx0 + ((r2.mul side).div (Frac.ofInt 3)).toI32
    let sy := sy0 + ((r3.mul side).div (Frac.ofInt 3)).toI32
    (Canvas.draw_square sinM cosM cs.1 sx sy side angle, q3.2)

/-- The integers visited by Rust's `for i in 0..n` loop over `i32`,
as `Int` values (empty when `n ≤ 0`). -/
def intRange (n : Int) : List Int :=
  (List.range n.toNat).map (fun k : Nat => (k : Int))

/-- The nested `for y in 0..squares_per_col { for x in 0..squares_per_row
{ ... } }` loops of `draw_schotter`; the disorder factor
`(y+1)/(squares_per_col+1)` is chosen per row. -/
def schotterLoop (sinM cosM : Frac → Frac) (rng : Rng) (spr spc : Int)
    (side padding : Frac) (cs : Canvas × RngState) : Canvas × RngState :=
  (intRange spc).foldl
    (fun acc yi =>
      (intRange spr).foldl
        (fun acc2 xi =>
          schotterSquare sinM cosM rng side padding
            ((Frac.ofInt (yi + 1)).div (Frac.ofInt (spc + 1)))
            xi yi acc2)
        acc)
    cs

/-- Embedding of `Canvas::draw_schotter` (src/lib.rs:222): recompute the
layout, fail with `CanvasTooSmall` if the canvas is smaller than needed
in either axis (the canvas is then untouched and the generator
unconsumed), otherwise run the square loop.  The result mirrors Rust's
`&mut self` receiver plus `Result<(), CanvasError>`: the possibly
updated canvas, the generator state, and the error if any. -/
def Canvas.draw_schotter (sinM cosM : Frac → Frac) (rng : Rng) (c : Canvas)
    (s : RngState) (console_cols spr spc : Int) :
    Canvas × RngState × Option CanvasError :=
  let nw := schotter_needed_width console_cols
  let nh := schotter_needed_height console_cols spr spc
  if c.width < nw ∨ c.height < nh then
    (c, s, some (CanvasError.CanvasTooSmall nw c.width nh c.height))
  else
    let r := schotterLoop sinM cosM rng spr spc
      (schotter_square_side console_cols spr) (schotter_padding console_cols) (c, s)
    (r.1, r.2, none)

/-- The shape of a canvas: buffer length and dimensions.  Drawing
operations never change it. -/
def shapeOf (c : Canvas) : Nat × Int × Int := (c.pixels.length, c.width, c.height)

/-! ## Helper lemmas for the canvas core -/

/-- Out-of-bounds coordinates produce no linear index. -/
theorem Canvas.index_eq_none_of_oob (c : Canvas) (x y : Int)
    (h : ¬(0 ≤ x ∧ x < c.width ∧ 0 ≤ y ∧ y < c.height)) :
    c.index x y = none := by
  simp only [Canvas.index, if_neg h]

/-- In-bounds coordinates on a canvas whose buffer satisfies the length
invariant always produce a linear index, namely `x + y * width`, and that
index is inside the buffer. -/
theorem Canvas.index_eq_some (c : Canvas) (x y : Int)
    (hx0 : 0 ≤ x) (hxw : x < c.width) (hy0 : 0 ≤ y) (hyh : y < c.height)
    (hlen : c.width * c.height ≤ (c.pixels.length : Int)) :
    c.index x y = some (x.toNat + y.toNat * c.width.toNat) ∧
    x.toNat + y.toNat * c.width.toNat < c.pixels.length := by
  have hw0 : 0 ≤ c.width := le_trans hx0 (le_of_lt hxw)
  have hh0 : 0 ≤ c.height := le_trans hy0 (le_of_lt hyh)
  have hxn : x.toNat < c.width.toNat := by omega
  have hyn : y.toNat < c.height.toNat := by omega
  have hWH : c.width.toNat * c.height.toNat ≤ c.pixels.length := by
    have h1 : (c.width.toNat : Int) * (c.height.toNat : Int) ≤ (c.pixels.length : Int) := by
      rw [Int.toNat_of_nonneg hw0, Int.toNat_of_nonneg hh0]
      exact hlen
    exact_mod_cast h1
  have hbound : x.toNat + y.toNat * c.width.toNat < c.pixels.length := by
    have h1 : x.toNat + y.toNat * c.width.toNat < (y.toNat + 1) * c.width.toNat := by
      calc x.toNat + y.toNat * c.width.toNat
          < c.width.toNat + y.toNat * c.width.toNat := by omega
        _ = (y.toNat + 1) * c.width.toNat := by ring
    have h2 : (y.toNat + 1) * c.width.toNat ≤ c.height.toNat * c.width.toNat :=
      Nat.mul_le_mul_right _ (by omega)
    calc x.toNat + y.toNat * c.width.toNat
        < (y.toNat + 1) * c.width.toNat := h1
      _ ≤ c.height.toNat * c.width.toNat := h2
      _ = c.width.toNat * c.height.toNat := Nat.mul_comm _ _
      _ ≤ c.pixels.length := hWH
  refine ⟨?_, hbound⟩
  simp only [Canvas.index, if_pos (⟨hx0, hxw, hy0, hyh⟩ :
    0 ≤ x ∧ x < c.width ∧ 0 ≤ y ∧ y < c.height), if_pos hbound]

/-- Out-of-bounds reads return the off value. -/
theorem Canvas.get_pixel_oob (c : Canvas) (x y : Int)
    (h : ¬(0 ≤ x ∧ x < c.width ∧ 0 ≤ y ∧ y < c.height)) :
    c.get_pixel x y = 0 := by
  simp only [Canvas.get_pixel, Canvas.index_eq_none_of_oob c x y h]

/-- Out-of-bounds writes do not change the canvas at all. -/
theorem Canvas.draw_pixel_oob (c : Canvas) (x y : Int) (v : Nat)
    (h : ¬(0 ≤ x ∧ x < c.width ∧ 0 ≤ y ∧ y < c.height)) :
    c.draw_pixel x y v = c := by
  simp only [Canvas.draw_pixel, Canvas.index_eq_none_of_oob c x y h]

/-- Writing a pixel never changes the buffer length or the dimensions. -/
theorem Canvas.draw_pixel_shape (c : Canvas) (x y : Int) (v : Nat) :
    (c.draw_pixel x y v).pixels.length = c.pixels.length ∧
    (c.draw_pixel x y v).width = c.width ∧
    (c.draw_pixel x y v).height = c.height := by
  unfold Canvas.draw_pixel
  cases c.index x y <;> simp

set_option maxRecDepth 4000 in
/-- The evaluation of `translate_pixels_group`: on every byte it is
exactly `0x2800 + byte`, checked exhaustively. -/
theorem translate_pixels_group_eq :
    ∀ b : Nat, b < 256 → translate_pixels_group b = 0x2800 + b := by decide

/-! ## Claim theorems: C1, C4, C5, C10 -/

/-- C1: for every byte value `b < 256`, `translate_pixels_group b` is
exactly the Braille Pattern code point `0x2800 + b`; the map is a
bijection from the 256 byte values onto `[U+2800, U+28FF]`, and the
`'☂'` (U+2602) fallback of the manual UTF-8 construction is never
reached. -/
theorem claim_C1 :
    (∀ b : Nat, b < 256 → translate_pixels_group b = 0x2800 + b) ∧
    Set.BijOn translate_pixels_group (Set.Iio 256) (Set.Icc 0x2800 0x28FF) ∧
    (∀ b : Nat, b < 256 → translate_pixels_group b ≠ 0x2602) := by
  refine ⟨translate_pixels_group_eq, ⟨?_, ?_, ?_⟩, ?_⟩
  · intro b hb
    rw [Set.mem_Iio] at hb
    rw [Set.mem_Icc, translate_pixels_group_eq b hb]
    omega
  · intro b1 h1 b2 h2 heq
    rw [Set.mem_Iio] at h1 h2
    rw [translate_pixels_group_eq b1 h1, translate_pixels_group_eq b2 h2] at heq
    omega
  · intro cpt hcpt
    rw [Set.mem_Icc] at hcpt
    refine ⟨cpt - 0x2800, ?_, ?_⟩
    · rw [Set.mem_Iio]; omega
    · rw [translate_pixels_group_eq (cpt - 0x2800) (by omega)]; omega
  · intro b hb
    rw [translate_pixels_group_eq b hb]
    omega

/-- Witness for C1 at the extreme byte value 255. -/
theorem claim_C1_witness : translate_pixels_group 255 = 0x2800 + 255 :=
  claim_C1.1 255 (by decide)

/-- C4: for any coordinate outside `[0,width) × [0,height)`, `draw_pixel`
is a no-op for every value `v` and `get_pixel` returns 0; both are total
functions of the canvas. -/
theorem claim_C4 (c : Canvas) (x y : Int) (v : Nat)
    (h : ¬(0 ≤ x ∧ x < c.width ∧ 0 ≤ y ∧ y < c.height)) :
    c.draw_pixel x y v = c ∧ c.get_pixel x y = 0 :=
  ⟨Canvas.draw_pixel_oob c x y v h, Canvas.get_pixel_oob c x y h⟩

/-- Witness for C4: the coordinate (-1, 0) lies outside a 2 by 2 canvas. -/
theorem claim_C4_witness :
    (Canvas.create 2 2).draw_pixel (-1) 0 7 = Canvas.create 2 2 ∧
    (Canvas.create 2 2).get_pixel (-1) 0 = 0 :=
  claim_C4 (Canvas.create 2 2) (-1) 0 7 (by decide)

/-- C5: on a canvas satisfying the buffer-length invariant, writing any
byte `v` at an in-bounds coordinate and reading it back returns exactly
`v`, with no normalization of the stored byte. -/
theorem claim_C5 (c : Canvas) (x y : Int) (v : Nat)
    (hx0 : 0 ≤ x) (hxw : x < c.width) (hy0 : 0 ≤ y) (hyh : y < c.height)
    (hlen : c.width * c.height ≤ (c.pixels.length : Int)) :
    (c.draw_pixel x y v).get_pixel x y = v := by
  obtain ⟨hidx, hlt⟩ := Canvas.index_eq_some c x y hx0 hxw hy0 hyh hlen
  set i := x.toNat + y.toNat * c.width.toNat with hi
  have hdp : c.draw_pixel x y v = { c with pixels := c.pixels.set i v } := by
    simp only [Canvas.draw_pixel, hidx]
  have hidx2 : (c.draw_pixel x y v).index x y = some i := by
    rw [hdp]
    exact (Canvas.index_eq_some { c with pixels := c.pixels.set i v } x y
      hx0 hxw hy0 hyh (by simpa using hlen)).1
  rw [Canvas.get_pixel, hidx2, hdp]
  show (c.pixels.set i v).getD i 0 = v
  have hlt2 : i < (c.pixels.set i v).length := by simpa using hlt
  rw [List.getD_eq_getElem _ _ hlt2]
  exact List.getElem_set_self hlt2

/-- Witness for C5 on a concrete 2 by 2 canvas with a byte value other
than 0 and 1. -/
theorem claim_C5_witness :
    ((Canvas.create 2 2).draw_pixel 1 1 7).get_pixel 1 1 = 7 :=
  claim_C5 (Canvas.create 2 2) 1 1 7 (by decide) (by decide) (by decide)
    (by decide) (by decide)

/-- Starting the loop at the endpoint plots exactly that single point and
stops, whatever the other parameters are. -/
theorem drawLineLoop_at_end (color : Nat) (x2 y2 sx sy dx dy : Int)
    (fuel : Nat) (c : Canvas) (err : Int) :
    drawLineLoop color x2 y2 sx sy dx dy (fuel + 1) c x2 y2 err =
      some (c.draw_pixel x2 y2 color, [(x2, y2)]) := by
  simp [drawLineLoop]

/-- Bresenham loop invariant: writing `u = sx*(x2-x)` and `v = sy*(y2-y)`
for the signed remaining distances, if `0 ≤ u ≤ dx`, `0 ≤ v ≤ dy`,
`err = dx - dy + u*dy - v*dx`, and the fuel exceeds `u + v`, then the
loop completes: it returns the final canvas and the plotted points, the
first plotted point is the current one, the endpoint is plotted, at most
`u + v + 1` points are plotted (so every iteration advances the current
point toward the endpoint in at least one axis), and the buffer length
and dimensions are unchanged. -/
theorem drawLineLoop_completes (color : Nat) (x2 y2 sx sy dx dy : Int)
    (hsx : sx = 1 ∨ sx = -1) (hsy : sy = 1 ∨ sy = -1) :
    ∀ (fuel : Nat) (c : Canvas) (x y err : Int),
      0 ≤ sx * (x2 - x) → sx * (x2 - x) ≤ dx →
      0 ≤ sy * (y2 - y) → sy * (y2 - y) ≤ dy →
      err = dx - dy + sx * (x2 - x) * dy - sy * (y2 - y) * dx →
      sx * (x2 - x) + sy * (y2 - y) < (fuel : Int) →
      ∃ cf pts,
        drawLineLoop color x2 y2 sx sy dx dy fuel c x y err = some (cf, pts) ∧
        pts.head? = some (x, y) ∧ (x2, y2) ∈ pts ∧
        (pts.length : Int) ≤ sx * (x2 - x) + sy * (y2 - y) + 1 ∧
        cf.pixels.length = c.pixels.length ∧ cf.width = c.width ∧
        cf.height = c.height := by
  have hsx2 : sx * sx = 1 := by rcases hsx with h | h <;> rw [h] <;> norm_num
  have hsy2 : sy * sy = 1 := by rcases hsy with h | h <;> rw [h] <;> norm_num
  have hsxne : sx ≠ 0 := by rcases hsx with h | h <;> rw [h] <;> norm_num
  have hsyne : sy ≠ 0 := by rcases hsy with h | h <;> rw [h] <;> norm_num
  intro fuel
  induction fuel with
  | zero =>
    intro c x y err hu0 hud hv0 hvd herr hfuel
    exfalso
    have h0 : ((0 : Nat) : Int) = 0 := rfl
    rw [h0] at hfuel
    linarith
  | succ fuel ih =>
    intro c x y err hu0 hud hv0 hvd herr hfuel
    have hshape := Canvas.draw_pixel_shape c x y color
    by_cases hend : x = x2 ∧ y = y2
    · refine ⟨c.draw_pixel x y color, [(x, y)], ?_, rfl, ?_, ?_,
        hshape.1, hshape.2.1, hshape.2.2⟩
      · simp only [drawLineLoop, if_pos hend]
      · simp [hend.1, hend.2]
      · simp only [List.length_singleton]
        have h1 : ((1 : Nat) : Int) = 1 := rfl
        rw [h1]
        linarith
    · -- the loop takes a step
      have hdx0 : 0 ≤ dx := le_trans hu0 hud
      have hdy0 : 0 ≤ dy := le_trans hv0 hvd
      have hxiff : sx * (x2 - x) = 0 ↔ x = x2 := by
        rw [mul_eq_zero]
        constructor
        · rintro (h | h)
          · exact absurd h hsxne
          · omega
        · intro h; right; omega
      have hyiff : sy * (y2 - y) = 0 ↔ y = y2 := by
        rw [mul_eq_zero]
        constructor
        · rintro (h | h)
          · exact absurd h hsyne
          · omega
        · intro h; right; omega
      have hne : ¬(sx * (x2 - x) = 0 ∧ sy * (y2 - y) = 0) := fun ⟨h1, h2⟩ =>
        hend ⟨hxiff.mp h1, hyiff.mp h2⟩
      have hux : sx * (x2 - (x + sx)) = sx * (x2 - x) - 1 := by
        have h : sx * (x2 - (x + sx)) = sx * (x2 - x) - sx * sx := by ring
        rw [h, hsx2]
      have hvy : sy * (y2 - (y + sy)) = sy * (y2 - y) - 1 := by
        have h : sy * (y2 - (y + sy)) = sy * (y2 - y) - sy * sy := by ring
        rw [h, hsy2]
      have hfuel' : sx * (x2 - x) + sy * (y2 - y) < (fuel : Int) + 1 := by
        have hc : ((fuel + 1 : Nat) : Int) = (fuel : Int) + 1 := by push_cast; ring
        rw [hc] at hfuel
        exact hfuel
      have hu1 : 2 * err > -dy → 1 ≤ sx * (x2 - x) := by
        intro hX
        by_contra h'
        have hu00 : sx * (x2 - x) = 0 := le_antisymm (by omega) hu0
        have hv10 : 1 ≤ sy * (y2 - y) := by
          by_cases hv00 : sy * (y2 - y) = 0
          · exact absurd ⟨hu00, hv00⟩ hne
          · omega
        have hdy1 : 1 ≤ dy := le_trans hv10 hvd
        have hp : 0 ≤ dx * (sy * (y2 - y) - 1) := mul_nonneg hdx0 (by linarith)
        rw [hu00] at herr
        nlinarith [hX, hp]
      have hv1 : 2 * err < dx → 1 ≤ sy * (y2 - y) := by
        intro hY
        by_contra h'
        have hv00 : sy * (y2 - y) = 0 := le_antisymm (by omega) hv0
        have hu10 : 1 ≤ sx * (x2 - x) := by
          by_cases hu00 : sx * (x2 - x) = 0
          · exact absurd ⟨hu00, hv00⟩ hne
          · omega
        have hp : 0 ≤ dy * (sx * (x2 - x) - 1) := mul_nonneg hdy0 (by linarith)
        rw [hv00] at herr
        nlinarith [hY, hp]
      by_cases hX : 2 * err > -dy <;> by_cases hY : 2 * err < dx
      · -- both axes advance
        have hu1' := hu1 hX
        have hv1' := hv1 hY
        have hs1 : (lineStep dx dy sx sy x y err).1 = x + sx := by
          simp [lineStep, hX]
        have hs2 : (lineStep dx dy sx sy x y err).2.1 = y + sy := by
          simp [lineStep, hY]
        have hs3 : (lineStep dx dy sx sy x y err).2.2 = err - dy + dx := by
          simp [lineStep, hX, hY]
        obtain ⟨cf, pts, hloop, hhead, hmem, hlen, hpl, hpw, hph⟩ :=
          ih (c.draw_pixel x y color) (x + sx) (y + sy) (err - dy + dx)
            (by rw [hux]; linarith) (by rw [hux]; linarith)
            (by rw [hvy]; linarith) (by rw [hvy]; linarith)
            (by rw [hux, hvy, herr]; ring)
            (by rw [hux, hvy]; linarith)
        refine ⟨cf, (x, y) :: pts, ?_, rfl, List.mem_cons_of_mem _ hmem, ?_,
          by rw [hpl, hshape.1], by rw [hpw, hshape.2.1], by rw [hph, hshape.2.2]⟩
        · simp only [drawLineLoop, if_neg hend]
          rw [hs1, hs2, hs3, hloop]
        · simp only [List.length_cons]
          rw [hux, hvy] at hlen
          have hc : ((pts.length + 1 : Nat) : Int) = (pts.length : Int) + 1 := by
            push_cast; ring
          rw [hc]
          linarith
      · -- only x advances
        have hu1' := hu1 hX
        have hs1 : (lineStep dx dy sx sy x y err).1 = x + sx := by
          simp [lineStep, hX]
        have hs2 : (lineStep dx dy sx sy x y err).2.1 = y := by
          simp [lineStep, hY]
        have hs3 : (lineStep dx dy sx sy x y err).2.2 = err - dy := by
          simp [lineStep, hX, hY]
        obtain ⟨cf, pts, hloop, hhead, hmem, hlen, hpl, hpw, hph⟩ :=
          ih (c.draw_pixel x y color) (x + sx) y (err - dy)
            (by rw [hux]; linarith) (by rw [hux]; linarith)
            hv0 hvd
            (by rw [hux, herr]; ring)
            (by rw [hux]; linarith)
        refine ⟨cf, (x, y) :: pts, ?_, rfl, List.mem_cons_of_mem _ hmem, ?_,
          by rw [hpl, hshape.1], by rw [hpw, hshape.2.1], by rw [hph, hshape.2.2]⟩
        · simp only [drawLineLoop, if_neg hend]
          rw [hs1, hs2, hs3, hloop]
        · simp only [List.length_cons]
          rw [hux] at hlen
          have hc : ((pts.length + 1 : Nat) : Int) = (pts.length : Int) + 1 := by
            push_cast; ring
          rw [hc]
          linarith
      · -- only y advances
        have hv1' := hv1 hY
        have hs1 : (lineStep dx dy sx sy x y err).1 = x := by
          simp [lineStep, hX]
        have hs2 : (lineStep dx dy sx sy x y err).2.1 = y + sy := by
          simp [lineStep, hY]
        have hs3 : (lineStep dx dy sx sy x y err).2.2 = err + dx := by
          simp [lineStep, hX, hY]
        obtain ⟨cf, pts, hloop, hhead, hmem, hlen, hpl, hpw, hph⟩ :=
          ih (c.draw_pixel x y color) x (y + sy) (err + dx)
            hu0 hud
            (by rw [hvy]; linarith) (by rw [hvy]; linarith)
            (by rw [hvy, herr]; ring)
            (by rw [hvy]; linarith)
        refine ⟨cf, (x, y) :: pts, ?_, rfl, List.mem_cons_of_mem _ hmem, ?_,
          by rw [hpl, hshape.1], by rw [hpw, hshape.2.1], by rw [hph, hshape.2.2]⟩
        · simp only [drawLineLoop, if_neg hend]
          rw [hs1, hs2, hs3, hloop]
        · simp only [List.length_cons]
          rw [hvy] at hlen
          have hc : ((pts.length + 1 : Nat) : Int) = (pts.length : Int) + 1 := by
            push_cast; ring
          rw [hc]
          linarith
      · -- neither condition fires: impossible away from the endpoint
        exfalso
        push_neg at hX hY
        have hdx00 : dx = 0 := by linarith
        have hdy00 : dy = 0 := by linarith
        have hu00 : sx * (x2 - x) = 0 :=
          le_antisymm (hdx00 ▸ hud) hu0
        have hv00 : sy * (y2 - y) = 0 :=
          le_antisymm (hdy00 ▸ hvd) hv0
        exact hne ⟨hu00, hv00⟩

/-- C2: for every pair of endpoints and every color the `draw_line` loop
completes within `|x2-x1| + |y2-y1| + 1` iterations (each iteration
advances the current point toward the endpoint in at least one axis, as
the bound on the number of plotted points shows), and the plotted points
include both endpoints. -/
theorem claim_C2 (c : Canvas) (x1 y1 x2 y2 : Int) (color : Nat) :
    ∃ cf pts,
      c.drawLineRun x1 y1 x2 y2 color = some (cf, pts) ∧
      c.draw_line x1 y1 x2 y2 color = cf ∧
      (x1, y1) ∈ pts ∧ (x2, y2) ∈ pts ∧
      pts.length ≤ (x2 - x1).natAbs + (y2 - y1).natAbs + 1 := by
  have hu_init : (if x1 < x2 then (1 : Int) else -1) * (x2 - x1) = |x2 - x1| := by
    split
    · rw [abs_of_nonneg (by omega)]; ring
    · rw [abs_of_nonpos (by omega)]; ring
  have hv_init : (if y1 < y2 then (1 : Int) else -1) * (y2 - y1) = |y2 - y1| := by
    split
    · rw [abs_of_nonneg (by omega)]; ring
    · rw [abs_of_nonpos (by omega)]; ring
  obtain ⟨cf, pts, hloop, hhead, hmem, hlen, -, -, -⟩ :=
    drawLineLoop_completes color x2 y2
      (if x1 < x2 then 1 else -1) (if y1 < y2 then 1 else -1)
      (|x2 - x1|) (|y2 - y1|)
      (by split <;> simp) (by split <;> simp)
      ((x2 - x1).natAbs + (y2 - y1).natAbs + 1) c x1 y1
      (|x2 - x1| - |y2 - y1|)
      (by rw [hu_init]; exact abs_nonneg _) (by rw [hu_init])
      (by rw [hv_init]; exact abs_nonneg _) (by rw [hv_init])
      (by rw [hu_init, hv_init]; ring)
      (by
        rw [hu_init, hv_init]
        have hc : (((x2 - x1).natAbs + (y2 - y1).natAbs + 1 : Nat) : Int) =
            |x2 - x1| + |y2 - y1| + 1 := by
          push_cast
          ring
        rw [hc]
        linarith)
  have hrun : c.drawLineRun x1 y1 x2 y2 color = some (cf, pts) := hloop
  refine ⟨cf, pts, hrun, ?_, ?_, hmem, ?_⟩
  · simp only [Canvas.draw_line, hrun]
  · apply List.mem_of_mem_head? (l := pts) (a := (x1, y1))
    rw [Option.mem_def]
    exact hhead
  · rw [hu_init, hv_init, Int.abs_eq_natAbs, Int.abs_eq_natAbs] at hlen
    exact_mod_cast hlen

set_option maxRecDepth 10000 in
/-- C3: a degenerate line plots exactly one pixel, at its point, for any
canvas, point and color; and the line from (0,0) to (3,0) plots exactly
the four points (0,0), (1,0), (2,0), (3,0), in order, on an 8 by 4
canvas. -/
theorem claim_C3 :
    (∀ (c : Canvas) (x y : Int) (color : Nat),
        c.drawLineRun x y x y color = some (c.draw_pixel x y color, [(x, y)]) ∧
        c.draw_line x y x y color = c.draw_pixel x y color) ∧
    (Canvas.create 8 4).drawLineRun 0 0 3 0 1 =
      some ((Canvas.create 8 4).draw_line 0 0 3 0 1,
            [(0, 0), (1, 0), (2, 0), (3, 0)]) := by
  constructor
  · intro c x y color
    have h1 : c.drawLineRun x y x y color =
        some (c.draw_pixel x y color, [(x, y)]) :=
      drawLineLoop_at_end color x y _ _ _ _ _ c _
    exact ⟨h1, by simp only [Canvas.draw_line, h1]⟩
  · decide

/-- The number of values visited by `(0..hi).step_by(step)`. -/
theorem stepUpTo_length (hi : Int) (step : Nat) :
    (stepUpTo hi step).length = (hi.toNat + step - 1) / step := by
  rw [stepUpTo, List.length_map, List.length_range]

/-- Setting one more low bit of a byte below 256 keeps it below 256. -/
theorem ifOrBound (p : Prop) [Decidable p] (b k : Nat)
    (hb : b < 256) (hk : k < 8) : (if p then b ||| (1 <<< k) else b) < 256 := by
  split
  · have h1 : (1 <<< k) < 256 := by
      have he : (1 <<< k) = 2 ^ k := by simp [Nat.shiftLeft_eq]
      rw [he]
      calc 2 ^ k ≤ 2 ^ 7 := Nat.pow_le_pow_right (by norm_num) (by omega)
        _ < 256 := by norm_num
    exact Nat.or_lt_two_pow (n := 8) hb h1
  · exact hb

/-- Every tile byte is a valid byte value. -/
theorem Canvas.tileByte_lt (c : Canvas) (x y : Int) : c.tileByte x y < 256 := by
  simp only [Canvas.tileByte]
  exact ifOrBound _ _ 7
    (ifOrBound _ _ 6
      (ifOrBound _ _ 5
        (ifOrBound _ _ 4
          (ifOrBound _ _ 3
            (ifOrBound _ _ 2
              (ifOrBound _ _ 1
                (ifOrBound _ _ 0 (by norm_num) (by norm_num))
                (by norm_num))
              (by norm_num))
            (by norm_num))
          (by norm_num))
        (by norm_num))
      (by norm_num))
    (by norm_num)

/-- The explicit bounds guard changes nothing: `get_pixel` already reads
out-of-bounds samples as 0. -/
theorem Canvas.sampleClipped_eq (c : Canvas) (x y : Int) :
    c.sampleClipped x y = c.get_pixel x y := by
  unfold Canvas.sampleClipped
  split
  · rfl
  · exact (Canvas.get_pixel_oob c x y (by assumption)).symm

/-- The tile byte really is the one computed from clipped samples. -/
theorem Canvas.tileByte_eq_clipped (c : Canvas) (x y : Int) :
    c.tileByte x y = c.tileByteClipped x y := by
  simp only [Canvas.tileByte, Canvas.tileByteClipped, Canvas.sampleClipped_eq]

/-- C7: `render` produces exactly `ceil(height/4)` lines; each line is
exactly `ceil(width/2)` Braille Pattern code points (in U+2800..U+28FF)
followed by one line break; and every tile byte equals the byte built
from explicitly clipped samples, so samples past the right or bottom
edge are read as off and contribute no bit. -/
theorem claim_C7 (c : Canvas) :
    ∃ rows : List (List Nat),
      c.render = rows.flatten ∧
      rows.length = (c.height.toNat + 3) / 4 ∧
      (∀ row ∈ rows,
        row.length = (c.width.toNat + 1) / 2 + 1 ∧
        row.getLast? = some 10 ∧
        ∀ g ∈ row.dropLast, 0x2800 ≤ g ∧ g ≤ 0x28FF) ∧
      (∀ x y : Int, c.tileByte x y = c.tileByteClipped x y) := by
  refine ⟨(stepUpTo c.height 4).map (fun y => c.renderRow y), rfl, ?_, ?_, ?_⟩
  · simp only [List.length_map, stepUpTo_length]
    omega
  · intro row hrow
    rw [List.mem_map] at hrow
    obtain ⟨y, -, rfl⟩ := hrow
    refine ⟨?_, ?_, ?_⟩
    · simp only [Canvas.renderRow, List.length_append, List.length_map,
        stepUpTo_length, List.length_singleton]
      omega
    · simp [Canvas.renderRow]
    · intro g hg
      rw [Canvas.renderRow, List.dropLast_concat, List.mem_map] at hg
      obtain ⟨x, -, rfl⟩ := hg
      have hb := Canvas.tileByte_lt c x y
      rw [translate_pixels_group_eq _ hb]
      omega
  · intro x y
    exact Canvas.tileByte_eq_clipped c x y

/-- Witness for C7, instantiated on a concrete 3 by 5 canvas (both
dimensions fail to divide the tile size, so the bottom and right tiles
are partial). -/
theorem claim_C7_witness :
    ∃ rows : List (List Nat),
      (Canvas.create 3 5).render = rows.flatten ∧
      rows.length = ((Canvas.create 3 5).height.toNat + 3) / 4 ∧
      (∀ row ∈ rows,
        row.length = ((Canvas.create 3 5).width.toNat + 1) / 2 + 1 ∧
        row.getLast? = some 10 ∧
        ∀ g ∈ row.dropLast, 0x2800 ≤ g ∧ g ≤ 0x28FF) ∧
      (∀ x y : Int, (Canvas.create 3 5).tileByte x y =
        (Canvas.create 3 5).tileByteClipped x y) :=
  claim_C7 (Canvas.create 3 5)

/-- C10 (failing input): on a canvas whose pixel count is zero the Rust
`clear`/`fill` panic (indexing `self.pixels[0]` on an empty vector),
modelled here as `none`; on a non-empty canvas they do set every pixel
to 0 / 1 respectively. -/
theorem claim_C10 :
    (Canvas.create 0 5).clear = none ∧
    (Canvas.create 0 5).fill = none ∧
    (Canvas.create 2 2).clear =
      some { pixels := List.replicate 4 0, width := 2, height := 2 } ∧
    (Canvas.create 2 2).fill =
      some { pixels := List.replicate 4 1, width := 2, height := 2 } := by
  decide

/-! ## Shape preservation of the drawing operations -/

/-- `draw_pixel` never changes the canvas shape. -/
theorem Canvas.draw_pixel_shapeOf (c : Canvas) (x y : Int) (v : Nat) :
    shapeOf (c.draw_pixel x y v) = shapeOf c := by
  obtain ⟨h1, h2, h3⟩ := Canvas.draw_pixel_shape c x y v
  simp [shapeOf, h1, h2, h3]

/-- A completed `draw_line` loop never changes the canvas shape. -/
theorem drawLineLoop_shapeOf (color : Nat) (x2 y2 sx sy dx dy : Int) :
    ∀ (fuel : Nat) (c : Canvas) (x y err : Int) (cf : Canvas)
      (pts : List (Int × Int)),
      drawLineLoop color x2 y2 sx sy dx dy fuel c x y err = some (cf, pts) →
      shapeOf cf = shapeOf c := by
  intro fuel
  induction fuel with
  | zero =>
    intro c x y err cf pts h
    exact absurd h (by simp [drawLineLoop])
  | succ fuel ih =>
    intro c x y err cf pts h
    simp only [drawLineLoop] at h
    by_cases hend : x = x2 ∧ y = y2
    · rw [if_pos hend] at h
      simp only [Option.some.injEq, Prod.mk.injEq] at h
      rw [← h.1]
      exact Canvas.draw_pixel_shapeOf c x y color
    · rw [if_neg hend] at h
      rcases hrec : drawLineLoop color x2 y2 sx sy dx dy fuel
          (c.draw_pixel x y color)
          (lineStep dx dy sx sy x y err).1
          (lineStep dx dy sx sy x y err).2.1
          (lineStep dx dy sx sy x y err).2.2 with _ | p
      · rw [hrec] at h
        exact absurd h (by simp)
      · rw [hrec] at h
        obtain ⟨cf', pts'⟩ := p
        simp only [Option.some.injEq, Prod.mk.injEq] at h
        calc shapeOf cf = shapeOf cf' := by rw [h.1]
          _ = shapeOf (c.draw_pixel x y color) :=
            ih (c.draw_pixel x y color) _ _ _ cf' pts' hrec
          _ = shapeOf c := Canvas.draw_pixel_shapeOf c x y color

/-- `draw_line` never changes the canvas shape. -/
theorem Canvas.draw_line_shapeOf (c : Canvas) (x1 y1 x2 y2 : Int) (color : Nat) :
    shapeOf (c.draw_line x1 y1 x2 y2 color) = shapeOf c := by
  unfold Canvas.draw_line
  rcases hrun : c.drawLineRun x1 y1 x2 y2 color with _ | p
  · rfl
  · obtain ⟨cf, pts⟩ := p
    have := drawLineLoop_shapeOf color x2 y2 _ _ _ _ _ c x1 y1 _ cf pts hrun
    simpa using this

/-- `draw_square` never changes the canvas shape, whatever the trigonometry
models are. -/
theorem Canvas.draw_square_shapeOf (sinM cosM : Frac → Frac) (c : Canvas)
    (x y : Int) (size angle : Frac) :
    shapeOf (c.draw_square sinM cosM x y size angle) = shapeOf c := by
  simp only [Canvas.draw_square]
  rw [Canvas.draw_line_shapeOf, Canvas.draw_line_shapeOf,
    Canvas.draw_line_shapeOf, Canvas.draw_line_shapeOf]

/-- One schotter square never changes the canvas shape. -/
theorem schotterSquare_shapeOf (sinM cosM : Frac → Frac) (rng : Rng)
    (side padding factor : Frac) (xi yi : Int) (cs : Canvas × RngState) :
    shapeOf (schotterSquare sinM cosM rng side padding factor xi yi cs).1 =
      shapeOf cs.1 := by
  simp only [schotterSquare]
  exact Canvas.draw_square_shapeOf sinM cosM cs.1 _ _ _ _

/-- One schotter square advances the generator by exactly its fixed
six-draw pattern: float, bool, float, bool, float, bool. -/
theorem schotterSquare_state (sinM cosM : Frac → Frac) (rng : Rng)
    (side padding factor : Frac) (xi yi : Int) (cs : Canvas × RngState) :
    (schotterSquare sinM cosM rng side padding factor xi yi cs).2 =
      ⟨cs.2.pos + 6, cs.2.trace ++ sqPat⟩ := by
  simp only [schotterSquare, randF, randB, sqPat, RngState.mk.injEq]
  exact ⟨by simp, by simp⟩

/-- The length of an integer range. -/
theorem intRange_length (n : Int) : (intRange n).length = n.toNat := by
  rw [intRange, List.length_map, List.length_range]

/-- Trace of the inner (per-row) loop: one `sqPat` per column. -/
theorem schotterInner_state (sinM cosM : Frac → Frac) (rng : Rng)
    (side padding factor : Frac) (yi : Int) :
    ∀ (l : List Int) (cs : Canvas × RngState),
      ((l.foldl (fun acc2 xi =>
          schotterSquare sinM cosM rng side padding factor xi yi acc2)
          cs).2).trace =
        cs.2.trace ++ (List.replicate l.length sqPat).flatten := by
  intro l
  induction l with
  | nil => intro cs; simp
  | cons a t ih =>
    intro cs
    simp only [List.foldl_cons, List.length_cons]
    rw [ih, schotterSquare_state]
    rw [List.replicate_succ, List.flatten_cons, ← List.append_assoc]

/-- Shape preservation of the inner (per-row) loop. -/
theorem schotterInner_shape (sinM cosM : Frac → Frac) (rng : Rng)
    (side padding factor : Frac) (yi : Int) :
    ∀ (l : List Int) (cs : Canvas × RngState),
      shapeOf ((l.foldl (fun acc2 xi =>
          schotterSquare sinM cosM rng side padding factor xi yi acc2)
          cs).1) = shapeOf cs.1 := by
  intro l
  induction l with
  | nil => intro cs; rfl
  | cons a t ih =>
    intro cs
    simp only [List.foldl_cons]
    rw [ih, schotterSquare_shapeOf]

/-- Trace of the outer loop: `rows * columns` copies of `sqPat`. -/
theorem schotterOuter_state (sinM cosM : Frac → Frac) (rng : Rng)
    (spr spc : Int) (side padding : Frac) :
    ∀ (l : List Int) (cs : Canvas × RngState),
      ((l.foldl (fun acc yi =>
          (intRange spr).foldl (fun acc2 xi =>
            schotterSquare sinM cosM rng side padding
              ((Frac.ofInt (yi + 1)).div (Frac.ofInt (spc + 1)))
              xi yi acc2) acc) cs).2).trace =
        cs.2.trace ++ (List.replicate (l.length * spr.toNat) sqPat).flatten := by
  intro l
  induction l with
  | nil => intro cs; simp
  | cons a t ih =>
    intro cs
    simp only [List.foldl_cons, List.length_cons]
    rw [ih, schotterInner_state, intRange_length]
    rw [show (t.length + 1) * spr.toNat = spr.toNat + t.length * spr.toNat by ring]
    rw [List.replicate_add, List.flatten_append, ← List.append_assoc]

/-- Shape preservation of the outer loop. -/
theorem schotterOuter_shape (sinM cosM : Frac → Frac) (rng : Rng)
    (spr spc : Int) (side padding : Frac) :
    ∀ (l : List Int) (cs : Canvas × RngState),
      shapeOf ((l.foldl (fun acc yi =>
          (intRange spr).foldl (fun acc2 xi =>
            schotterSquare sinM cosM rng side padding
              ((Frac.ofInt (yi + 1)).div (Frac.ofInt (spc + 1)))
              xi yi acc2) acc) cs).1) = shapeOf cs.1 := by
  intro l
  induction l with
  | nil => intro cs; rfl
  | cons a t ih =>
    intro cs
    simp only [List.foldl_cons]
    rw [ih, schotterInner_shape]

/-- The schotter loop's generator trace: one fixed six-draw pattern per
square, `squares_per_col * squares_per_row` squares in total. -/
theorem schotterLoop_trace (sinM cosM : Frac → Frac) (rng : Rng)
    (spr spc : Int) (side padding : Frac) (cs : Canvas × RngState) :
    ((schotterLoop sinM cosM rng spr spc side padding cs).2).trace =
      cs.2.trace ++ (List.replicate (spc.toNat * spr.toNat) sqPat).flatten := by
  unfold schotterLoop
  rw [schotterOuter_state, intRange_length]

/-- Shape preservation of the schotter loop. -/
theorem schotterLoop_shapeOf (sinM cosM : Frac → Frac) (rng : Rng)
    (spr spc : Int) (side padding : Frac) (cs : Canvas × RngState) :
    shapeOf ((schotterLoop sinM cosM rng spr spc side padding cs).1) =
      shapeOf cs.1 := by
  unfold schotterLoop
  rw [schotterOuter_shape]

/-- `draw_schotter` never changes the canvas shape, in the error case or
the success case. -/
theorem Canvas.draw_schotter_shapeOf (sinM cosM : Frac → Frac) (rng : Rng)
    (c : Canvas) (s : RngState) (console_cols spr spc : Int) :
    shapeOf (c.draw_schotter sinM cosM rng s console_cols spr spc).1 =
      shapeOf c := by
  simp only [Canvas.draw_schotter]
  by_cases hcond : c.width < schotter_needed_width console_cols ∨
      c.height < schotter_needed_height console_cols spr spc
  · rw [if_pos hcond]
  · rw [if_neg hcond]
    exact schotterLoop_shapeOf sinM cosM rng spr spc _ _ (c, s)

/-- `clear` preserves the canvas shape whenever it succeeds. -/
theorem Canvas.clear_shapeOf (c c' : Canvas) (h : c.clear = some c') :
    shapeOf c' = shapeOf c := by
  unfold Canvas.clear at h
  split at h
  · exact absurd h (by simp)
  · simp only [Option.some.injEq] at h
    rw [← h]
    simp [shapeOf]

/-- `fill` preserves the canvas shape whenever it succeeds. -/
theorem Canvas.fill_shapeOf (c c' : Canvas) (h : c.fill = some c') :
    shapeOf c' = shapeOf c := by
  unfold Canvas.fill at h
  split at h
  · exact absurd h (by simp)
  · simp only [Option.some.injEq] at h
    rw [← h]
    simp [shapeOf]

/-! ## Claim theorems: C6, C8, C9 -/

/-- C6: `draw_schotter` returns the `CanvasTooSmall` error, carrying the
computed needed dimensions and the canvas's actual dimensions, exactly
when the canvas is narrower than `needed_width` or shorter than
`needed_height`; in that case the canvas and the generator are returned
untouched (the check precedes any drawing), and otherwise no error is
returned.  The hypothesis `0 < spr` keeps the layout's division by
`squares_per_row` meaningful (the spec requires a positive count). -/
theorem claim_C6 (sinM cosM : Frac → Frac) (rng : Rng) (c : Canvas)
    (s : RngState) (console_cols spr spc : Int) (hspr : 0 < spr) :
    ((c.width < schotter_needed_width console_cols ∨
        c.height < schotter_needed_height console_cols spr spc) →
      c.draw_schotter sinM cosM rng s console_cols spr spc =
        (c, s, some (CanvasError.CanvasTooSmall
          (schotter_needed_width console_cols) c.width
          (schotter_needed_height console_cols spr spc) c.height))) ∧
    (¬(c.width < schotter_needed_width console_cols ∨
        c.height < schotter_needed_height console_cols spr spc) →
      (c.draw_schotter sinM cosM rng s console_cols spr spc).2.2 = none) := by
  constructor
  · intro h
    simp only [Canvas.draw_schotter, if_pos h]
  · intro h
    simp only [Canvas.draw_schotter, if_neg h]

/-- Witness for C6: a 2 by 2 canvas is too small for `console_cols = 2`
(needed width 4, needed height 4), and the error carries exactly those
numbers while the canvas and generator come back untouched. -/
theorem claim_C6_witness :
    (Canvas.create 2 2).draw_schotter (fun _ => Frac.ofInt 0)
      (fun _ => Frac.ofInt 0) ⟨fun _ => Frac.ofInt 0, fun _ => false⟩
      ⟨0, []⟩ 2 1 1 =
      (Canvas.create 2 2, ⟨0, []⟩,
        some (CanvasError.CanvasTooSmall 4 2 4 2)) :=
  (claim_C6 (fun _ => Frac.ofInt 0) (fun _ => Frac.ofInt 0)
    ⟨fun _ => Frac.ofInt 0, fun _ => false⟩ (Canvas.create 2 2)
    ⟨0, []⟩ 2 1 1 (by decide)).1 (by decide)

/-- C8 (counterexample): `Canvas::create` multiplies `width * height` as
a plain `u32` product, which wraps (it is not saturating): creating a
65536 by 65536 canvas allocates 0 bytes while storing positive
dimensions, so the invariant `buffer length ≥ width*height` fails. -/
theorem claim_C8_counterexample :
    (Canvas.create 65536 65536).pixels.length = 0 ∧
    (Canvas.create 65536 65536).width = 65536 ∧
    (Canvas.create 65536 65536).height = 65536 ∧
    ¬((Canvas.create 65536 65536).width * (Canvas.create 65536 65536).height ≤
        ((Canvas.create 65536 65536).pixels.length : Int)) := by
  refine ⟨by decide, by decide, by decide, by decide⟩

/-- C8 (amended): when the `u32` product does not overflow (and both
dimensions fit `i32`), creation allocates exactly `width*height` bytes,
and every operation — `draw_pixel`, `draw_line`, `draw_square`,
`draw_schotter`, and `clear`/`fill` when they succeed — preserves the
buffer length and the dimensions, so `length ≥ width*height` holds for
every canvas produced from a non-overflowing creation. -/
theorem claim_C8_amended :
    (∀ w h : Nat, w < 2 ^ 31 → h < 2 ^ 31 → w * h < 2 ^ 32 →
      ((Canvas.create w h).pixels.length : Int) =
        (Canvas.create w h).width * (Canvas.create w h).height) ∧
    (∀ (c : Canvas) (x y : Int) (v : Nat),
      shapeOf (c.draw_pixel x y v) = shapeOf c) ∧
    (∀ (c : Canvas) (x1 y1 x2 y2 : Int) (color : Nat),
      shapeOf (c.draw_line x1 y1 x2 y2 color) = shapeOf c) ∧
    (∀ (sinM cosM : Frac → Frac) (c : Canvas) (x y : Int) (size angle : Frac),
      shapeOf (c.draw_square sinM cosM x y size angle) = shapeOf c) ∧
    (∀ (sinM cosM : Frac → Frac) (rng : Rng) (c : Canvas) (s : RngState)
        (cols spr spc : Int),
      shapeOf (c.draw_schotter sinM cosM rng s cols spr spc).1 = shapeOf c) ∧
    (∀ (c c' : Canvas), c.clear = some c' → shapeOf c' = shapeOf c) ∧
    (∀ (c c' : Canvas), c.fill = some c' → shapeOf c' = shapeOf c) := by
  refine ⟨?_, Canvas.draw_pixel_shapeOf, Canvas.draw_line_shapeOf,
    Canvas.draw_square_shapeOf, Canvas.draw_schotter_shapeOf,
    Canvas.clear_shapeOf, Canvas.fill_shapeOf⟩
  intro w h hw hh hwh
  have hwidth : (Canvas.create w h).width = (w : Int) := by
    simp only [Canvas.create, u32_to_i32]
    rw [Nat.mod_eq_of_lt (by omega : w < 2 ^ 32)]
    rw [if_pos hw]
  have hheight : (Canvas.create w h).height = (h : Int) := by
    simp only [Canvas.create, u32_to_i32]
    rw [Nat.mod_eq_of_lt (by omega : h < 2 ^ 32)]
    rw [if_pos hh]
  have hlen : (Canvas.create w h).pixels.length = w * h := by
    simp only [Canvas.create, List.length_replicate]
    exact Nat.mod_eq_of_lt hwh
  rw [hwidth, hheight, hlen]
  push_cast
  ring

/-- Witness for C8: a 4 by 4 creation satisfies the invariant exactly,
and a successful `clear` on a 2 by 2 canvas keeps the shape. -/
theorem claim_C8_witness :
    ((Canvas.create 4 4).pixels.length : Int) =
      (Canvas.create 4 4).width * (Canvas.create 4 4).height ∧
    shapeOf { pixels := List.replicate 4 0, width := 2, height := 2 } =
      shapeOf (Canvas.create 2 2) :=
  ⟨claim_C8_amended.1 4 4 (by decide) (by decide) (by decide),
   claim_C8_amended.2.2.2.2.2.1 (Canvas.create 2 2) _ (by decide)⟩

/-- C9 (counterexample): running `draw_schotter` on a canvas that fits
one single square consumes the generator in the order float, bool,
float, bool, float, bool — each of the three float draws is immediately
followed by ONE boolean coin flip, not two as the claim states (which
would be the nine-draw trace float, bool, bool, repeated). -/
theorem claim_C9_counterexample :
    ((Canvas.create 4 4).draw_schotter (fun _ => Frac.ofInt 0)
        (fun _ => Frac.ofInt 0)
        ⟨fun _ => Frac.ofInt 0, fun _ => false⟩ ⟨0, []⟩ 2 1 1).2.1.trace =
      [RngReq.f, RngReq.b, RngReq.f, RngReq.b, RngReq.f, RngReq.b] ∧
    [RngReq.f, RngReq.b, RngReq.f, RngReq.b, RngReq.f, RngReq.b] ≠
      [RngReq.f, RngReq.b, RngReq.b, RngReq.f, RngReq.b, RngReq.b,
       RngReq.f, RngReq.b, RngReq.b] := by
  exact ⟨by decide, by decide⟩

/-- C9 (amended): for every square drawn by `draw_schotter` the generator
is invoked exactly 3 times for uniform floats, each float draw
immediately followed by ONE boolean coin flip, in the fixed interleaved
order `sqPat = [f, b, f, b, f, b]`, identical for every square: the loop
appends exactly `squares_per_col * squares_per_row` copies of `sqPat` to
the trace, and so does every run of `draw_schotter` that returns no
error. -/
theorem claim_C9_amended (sinM cosM : Frac → Frac) (rng : Rng) (c : Canvas)
    (s : RngState) (console_cols spr spc : Int) :
    (∀ (side padding : Frac) (cs : Canvas × RngState),
      ((schotterLoop sinM cosM rng spr spc side padding cs).2).trace =
        cs.2.trace ++ (List.replicate (spc.toNat * spr.toNat) sqPat).flatten) ∧
    ((c.draw_schotter sinM cosM rng s console_cols spr spc).2.2 = none →
      ((c.draw_schotter sinM cosM rng s console_cols spr spc).2.1).trace =
        s.trace ++ (List.replicate (spc.toNat * spr.toNat) sqPat).flatten) := by
  constructor
  · intro side padding cs
    exact schotterLoop_trace sinM cosM rng spr spc side padding cs
  · intro hnone
    simp only [Canvas.draw_schotter] at hnone ⊢
    by_cases hcond : c.width < schotter_needed_width console_cols ∨
        c.height < schotter_needed_height console_cols spr spc
    · rw [if_pos hcond] at hnone
      exact absurd hnone (by simp)
    · rw [if_neg hcond]
      exact schotterLoop_trace sinM cosM rng spr spc _ _ (c, s)

/-- Witness for C9 (amended): the one-square run of the counterexample
returns no error, and its trace is exactly one copy of `sqPat`. -/
theorem claim_C9_witness :
    ((Canvas.create 4 4).draw_schotter (fun _ => Frac.ofInt 0)
        (fun _ => Frac.ofInt 0)
        ⟨fun _ => Frac.ofInt 0, fun _ => false⟩ ⟨0, []⟩ 2 1 1).2.1.trace =
      [] ++ (List.replicate ((1 : Int).toNat * (1 : Int).toNat) sqPat).flatten :=
  (claim_C9_amended (fun _ => Frac.ofInt 0) (fun _ => Frac.ofInt 0)
    ⟨fun _ => Frac.ofInt 0, fun _ => false⟩ (Canvas.create 4 4)
    ⟨0, []⟩ 2 1 1).2 (by decide)
